import Mathlib

/-!
# Verification of the RP_Project speech-enhancement pipeline

Shallow embedding of the processing code of the repository:

* `RP_Project/Python/App.py` — the `adaptive_wiener` engine: per-frame adaptive
  noise-PSD tracking, Wiener gain, scipy STFT/ISTFT framing, peak normalization.
* `RP_Project/Backend/Processing.py` — the `AudioProcessor` class: the eight
  metric formulas and the seven-step `process_audio` pipeline.

Modelling conventions:

* Machine floats are modelled by elements of a `LinearOrderedField` (instantiated
  at `ℚ` for executable witnesses and at `ℝ` for the transform layer, whose
  trigonometric kernels are irrational).  IEEE NaN/Inf special values do not
  exist in this model; the one place the source can produce a NaN that matters
  to a claim (division by a zero peak in `adaptive_wiener`) is modelled with
  `Option` (`none` = non-finite output).
* A complex spectrum bin is a pair `(re, im)`; `np.abs(X)**2` is `re^2 + im^2`.
* numpy arrays are Lean lists; column slicing `M[:, :k]` is `List.take k` on the
  list of frames (a spectrogram is stored as a list of frames, each frame a list
  of bins).
-/

namespace RP

/-- Elementwise sum of two lists keeping the tail of the longer one.
Models accumulation of a frame into an overlap-add buffer. -/
def zipAddExt {F : Type*} [Add F] : List F → List F → List F
  | [], ys => ys
  | x :: xs, [] => x :: xs
  | x :: xs, y :: ys => (x + y) :: zipAddExt xs ys

/-- Overlap-add of a list of frames with hop `hop`: frame `k` starts at sample
`k * hop` and overlapping samples are summed (the reconstruction loop shared by
`librosa.istft` and `scipy.signal.istft`). -/
def ola {F : Type*} [Add F] [Zero F] (hop : ℕ) : List (List F) → List F
  | [] => []
  | f :: rest => zipAddExt f (List.replicate hop 0 ++ ola hop rest)

/-- Successive frames of length `n` with hop `hop` taken from a buffer
(`librosa.util.frame` / scipy `_spectral_helper` striding); the buffer is
assumed at least one frame long, trailing samples that do not fill a frame are
dropped. -/
def extractFrames {α : Type*} (xs : List α) (n hop : ℕ) : List (List α) :=
  (List.range ((xs.length - n) / hop + 1)).map fun i => (xs.drop (i * hop)).take n

/-- `np.mean` of a list (empty list gives `0/0 = 0` in this model; the source
produces NaN there, and no claim relies on the value at an empty list). -/
def mean {F : Type*} [DivisionRing F] (xs : List F) : F := xs.sum / (xs.length : F)

/-- Per-bin mean over a list of rows: bin `i` of the result is the mean of the
`i`-th entries of the rows (`np.mean(M, axis=1)` on a bins × frames matrix). -/
def binMean {F : Type*} [DivisionRing F] (rows : List (List F)) (nbins : ℕ) : List F :=
  (List.range nbins).map fun i => mean (rows.map fun r => r.getD i 0)

/-- A complex spectrum bin `(re, im)`. -/
abbrev CBin (F : Type*) := F × F

/-- One spectrum frame: the list of its bins. -/
abbrev Frame (F : Type*) := List (CBin F)

/-- `np.abs(z)**2 = re^2 + im^2` for a complex bin. -/
def normSq {F : Type*} [CommRing F] (z : CBin F) : F := z.1 * z.1 + z.2 * z.2

/-- `current_psd = np.abs(frame)**2`, per bin (Python/App.py line 91). -/
def framePsd {F : Type*} [CommRing F] (f : Frame F) : List F := f.map normSq

/-- `noise_psd = alpha * noise_psd + (1 - alpha) * current_psd`
(Python/App.py line 94). -/
def noiseUpdate {F : Type*} [CommRing F] (α n c : F) : F := α * n + (1 - α) * c

/-- `speech_psd = np.maximum(current_psd - noise_psd, 1e-10)`
(Python/App.py line 96). -/
def speechPsd {F : Type*} [LinearOrderedField F] (cp n : F) : F :=
  max (cp - n) (1 / 10 ^ 10)

/-- `H = speech_psd / (speech_psd + noise_psd)` (Python/App.py line 97). -/
def wienerH {F : Type*} [LinearOrderedField F] (cp n : F) : F :=
  speechPsd cp n / (speechPsd cp n + n)

/-- The per-bin Gain Vector of one frame, computed from the frame's bins and the
current (already updated) noise estimate. -/
def gainVec {F : Type*} [LinearOrderedField F] (f : Frame F) (noise : List F) : List F :=
  List.zipWith (fun z n => wienerH (normSq z) n) f noise

/-- `enhanced = H * X`, per bin (Python/App.py line 99): scaling a complex bin
by a real gain. -/
def applyGain {F : Type*} [CommRing F] (g : List F) (f : Frame F) : Frame F :=
  List.zipWith (fun gz z => (gz * z.1, gz * z.2)) g f

/-- The frame loop of `adaptive_wiener` (Python/App.py lines 90–99), starting
from noise estimate `noise`: each iteration updates the noise estimate from the
current frame's PSD, then emits the frame scaled by the Wiener gain computed
from the updated estimate. -/
def adaptiveLoop {F : Type*} [LinearOrderedField F] (α : F) (noise : List F) :
    List (Frame F) → List (Frame F)
  | [] => []
  | f :: rest =>
    let noise' := List.zipWith (noiseUpdate α) noise (framePsd f)
    applyGain (gainVec f noise') f :: adaptiveLoop α noise' rest

/-- `noise_psd = np.mean(np.abs(noisy_stft[:, :5])**2, axis=1)`
(Python/App.py line 87): bootstrap of the noise estimate from the power
spectrum of the first five frames of the current signal. -/
def bootstrapNoise {F : Type*} [LinearOrderedField F] (frames : List (Frame F)) : List F :=
  binMean ((frames.take 5).map framePsd) (frames.headD []).length

/-- The noise estimate after `k` loop iterations, starting from `init`:
`noiseIter α init frames (k+1)` applies the adaptive update with frame `k`'s
PSD to `noiseIter α init frames k`. -/
def noiseIter {F : Type*} [LinearOrderedField F] (α : F) (init : List F)
    (frames : List (Frame F)) : ℕ → List F
  | 0 => init
  | k + 1 => List.zipWith (noiseUpdate α) (noiseIter α init frames k) (framePsd (frames.getD k []))

/-- The noise estimate of `adaptive_wiener` after processing `k` frames:
bootstrapped from the first five frames of this same signal, then updated once
per frame. -/
def noiseAfter {F : Type*} [LinearOrderedField F] (α : F) (frames : List (Frame F)) (k : ℕ) :
    List F :=
  noiseIter α (bootstrapNoise frames) frames k

/-- The enhancement core of `adaptive_wiener`: the frame loop run on the whole
spectrogram with the bootstrapped noise estimate. -/
def adaptive_core {F : Type*} [LinearOrderedField F] (α : F) (frames : List (Frame F)) :
    List (Frame F) :=
  adaptiveLoop α (bootstrapNoise frames) frames

/-- `np.max(np.abs(xs))`, as a fold with neutral element `0` (all compared
values are absolute values, so the `0` seed is below every element; the source
raises on an empty array, a case no claim exercises for a nonempty signal). -/
def maxAbs {F : Type*} [LinearOrderedField F] (xs : List F) : F :=
  xs.foldl (fun m x => max m |x|) 0

/-- `enhanced_signal = enhanced_signal / np.max(np.abs(enhanced_signal))`
(Python/App.py line 102).  When the peak is zero the IEEE division produces
NaN (a non-finite output), modelled as `none`. -/
def normalizeOut {F : Type*} [LinearOrderedField F] (xs : List F) : Option (List F) :=
  if maxAbs xs = 0 then none else some (xs.map fun x => x / maxAbs xs)

/-- `formula_3_snr_calculation` (Backend/Processing.py lines 96–98):
`snr = signal_power_db - noise_power_db`, floored at `0.0` by
`max(snr, 0.0)`.  The two float subtractions cannot raise, so the
`except` fallback branch of the source is dead code. -/
def formula_3_snr_calculation {F : Type*} [LinearOrderedField F] (s n : F) : F :=
  max (s - n) 0

/-- A spectrum bin in polar form: `mag` models `np.abs(z)` and `phase` models
`np.angle(z)`; multiplying a magnitude by `np.exp(1j*phase)` is represented by
building a `PolarBin` with that magnitude and phase. -/
structure PolarBin (F : Type*) where
  mag : F
  phase : F

/-- One bin of `formula_5_spectral_subtraction` (Backend/Processing.py lines
155–166): `enhanced_mag = max(audio_mag - factor * noise_mag, 0.1 * audio_mag)`
recombined with the original phase (`enhanced_mag * np.exp(1j * phase)`).
The bin magnitude of the noise estimate, `np.abs(noise_stft)`, is the square
root of the noise PSD. -/
def formula_5_bin {F : Type*} [LinearOrderedField F] (factor : F) (a nz : PolarBin F) :
    PolarBin F :=
  ⟨max (a.mag - factor * nz.mag) (1 / 10 * a.mag), a.phase⟩

/-- `formula_5_spectral_subtraction` on one frame, bin by bin (the numpy
expressions of Backend/Processing.py lines 155–166 act elementwise).  The
source default of `subtraction_factor` is `0.8`; the pipeline call passes
`0.75`. -/
def formula_5_spectral_subtraction {F : Type*} [LinearOrderedField F] (factor : F)
    (audio noise : List (PolarBin F)) : List (PolarBin F) :=
  List.zipWith (formula_5_bin factor) audio noise

/-! ## Transform layer

The repository performs its transforms through `librosa.stft`/`librosa.istft`
(Backend, `n_fft=2048`, `hop_length=512`, hann window, default `center=True`)
and `scipy.signal.stft`/`scipy.signal.istft` (Python app, `nperseg=1024`,
`noverlap=512`, default `boundary='zeros'`, `padded=True`).  The framing,
padding and trimming policies below are those of the called libraries at the
parameters fixed by the source; the Fourier kernels are written out as real
cosine/sine sums. -/

noncomputable section

open Real in
/-- Periodic hann window of length `n`: `0.5 - 0.5*cos(2*pi*j/n)`. -/
def hannWindow (n : ℕ) : List ℝ :=
  (List.range n).map fun j : ℕ => 1 / 2 - 1 / 2 * Real.cos (2 * Real.pi * j / n)

/-- Real part of bin `k` of the length-`n` DFT of a real frame. -/
def dftBinRe (x : List ℝ) (n k : ℕ) : ℝ :=
  ((List.range n).map fun j => x.getD j 0 * Real.cos (2 * Real.pi * j * k / n)).sum

/-- Imaginary part of bin `k` of the length-`n` DFT of a real frame. -/
def dftBinIm (x : List ℝ) (n k : ℕ) : ℝ :=
  -((List.range n).map fun j => x.getD j 0 * Real.sin (2 * Real.pi * j * k / n)).sum

/-- One-sided real DFT: the `n/2 + 1` nonredundant bins of a real frame of
length `n` (Hermitian symmetry makes the remaining bins conjugates). -/
def rdft (x : List ℝ) (n : ℕ) : List (CBin ℝ) :=
  (List.range (n / 2 + 1)).map fun k => (dftBinRe x n k, dftBinIm x n k)

/-- Bin `k ∈ [0, n)` of the Hermitian extension of a one-sided spectrum. -/
def hermitianBin (X : List (CBin ℝ)) (n k : ℕ) : CBin ℝ :=
  if k < n / 2 + 1 then X.getD k (0, 0)
  else ((X.getD (n - k) (0, 0)).1, -(X.getD (n - k) (0, 0)).2)

/-- Inverse DFT of a one-sided spectrum back to `n` real samples. -/
def irfftReal (X : List (CBin ℝ)) (n : ℕ) : List ℝ :=
  (List.range n).map fun j : ℕ =>
    (((List.range n).map fun k =>
        (hermitianBin X n k).1 * Real.cos (2 * Real.pi * j * k / n) -
          (hermitianBin X n k).2 * Real.sin (2 * Real.pi * j * k / n)).sum) / n

/-- Center padding of `librosa.stft(..., center=True)`: `n/2` zeros on each
side of the signal (`pad_mode='constant'`, the librosa default). -/
def centerPad (n : ℕ) (sig : List ℝ) : List ℝ :=
  List.replicate (n / 2) 0 ++ sig ++ List.replicate (n / 2) 0

/-- `librosa.stft(audio, n_fft=2048, hop_length=512, window='hann')`
(Backend/Processing.py lines 309–314): center-pad, frame with hop 512, window
each frame, one-sided DFT.  With `center=True` this yields
`len(audio)/512 + 1` frames, not the trailing-drop count. -/
def stft_librosa (audio : List ℝ) : List (Frame ℝ) :=
  (extractFrames (centerPad 2048 audio) 2048 512).map fun f =>
    rdft (List.zipWith (· * ·) (hannWindow 2048) f) 2048

/-- Librosa's synthesis normalization: the overlap-added envelope of squared
hann windows; samples of the reconstruction where the envelope exceeds the
float32 tiny threshold are divided by it. -/
def windowSumSquare (nFrames n hop : ℕ) : List ℝ :=
  ola hop (List.replicate nFrames ((hannWindow n).map fun w => w * w))

/-- `librosa.istft(frames, hop_length=512, window='hann')` with `n_fft` 2048
inferred from the bin count (Backend/Processing.py lines 341–345): inverse DFT
each frame, apply the synthesis window, overlap-add, divide by the squared
window envelope, and trim `n_fft/2` samples from each end (`center=True`),
leaving `512 * (nFrames - 1)` samples. -/
def istft_librosa (frames : List (Frame ℝ)) : List ℝ :=
  let timeFrames := frames.map fun f =>
    List.zipWith (· * ·) (hannWindow 2048) (irfftReal f 2048)
  let y := ola 512 timeFrames
  let wss := windowSumSquare frames.length 2048 512
  let yNorm := List.zipWith (fun a w => if 1 / 10 ^ 38 < w then a / w else a) y wss
  (yNorm.drop 1024).take (512 * (frames.length - 1))

/-- scipy's end padding (`padded=True`): zeros appended after the boundary
extension so the extended signal splits into whole segments. -/
def scipyPad (len : ℕ) : ℕ := (512 - len % 512) % 512

/-- `scipy.signal.stft(sig, fs, nperseg=1024, noverlap=512)`
(Python/App.py line 85): extend with `nperseg/2` zeros on each side
(`boundary='zeros'`), pad to whole segments (`padded=True`), frame with step
`nperseg - noverlap = 512`, window, one-sided DFT, and scale by `1/win.sum()`
(`scaling='spectrum'`).  This yields `⌈len/512⌉ + 1` frames. -/
def stft_scipy (sig : List ℝ) : List (Frame ℝ) :=
  let ext := List.replicate 512 0 ++ sig ++ List.replicate 512 0
  let padded := ext ++ List.replicate (scipyPad sig.length) 0
  let s := (hannWindow 1024).sum
  (extractFrames padded 1024 512).map fun f =>
    (rdft (List.zipWith (· * ·) (hannWindow 1024) f) 1024).map fun z => (z.1 / s, z.2 / s)

/-- `scipy.signal.istft(Z, fs, nperseg=1024, noverlap=512)` (Python/App.py
line 101): undo the `spectrum` scaling, inverse DFT each segment, window,
overlap-add, divide by the squared window envelope, and remove the
`nperseg/2`-sample boundary extension from each end (`boundary=True`),
leaving `512 * (nFrames - 1)` samples. -/
def istft_scipy (frames : List (Frame ℝ)) : List ℝ :=
  let s := (hannWindow 1024).sum
  let timeFrames := frames.map fun f =>
    List.zipWith (· * ·) (hannWindow 1024) (irfftReal (f.map fun z => (z.1 * s, z.2 * s)) 1024)
  let y := ola 512 timeFrames
  let wss := windowSumSquare frames.length 1024 512
  let yNorm := List.zipWith (fun a w => if 1 / 10 ^ 10 < w then a / w else a) y wss
  (yNorm.drop 512).take (512 * (frames.length - 1))

/-- The reconstruction of `adaptive_wiener` before normalization
(Python/App.py lines 85–101): scipy STFT, adaptive Wiener frame loop, scipy
ISTFT.  The sample rate `fs` only labels the returned frequency/time axes in
scipy and does not influence the samples. -/
def adaptive_wiener_recon (sig : List ℝ) (fs : ℕ) (α : ℝ) : List ℝ :=
  istft_scipy (adaptive_core α (stft_scipy sig))

/-- `adaptive_wiener(noisy_signal, fs, alpha=0.98)` (Python/App.py lines
81–104), enhanced-signal output: the reconstruction divided by its own peak
absolute value (`none` models the NaN output produced when the peak is zero). -/
def adaptive_wiener (sig : List ℝ) (fs : ℕ) (α : ℝ) : Option (List ℝ) :=
  normalizeOut (adaptive_wiener_recon sig fs α)

/-! ## Backend metric formulas and the seven-step pipeline -/

/-- `formula_1_signal_power` (Backend/Processing.py lines 42–47):
`20*log10(rms + 1e-10)` with `rms = sqrt(np.mean(audio**2))`.  The numpy
expressions cannot raise on an array input, so the `except` fallback is dead
code.  (At an empty signal the source yields NaN; this model yields a junk
finite value, and no claim depends on it.) -/
def formula_1_signal_power (audio : List ℝ) : ℝ :=
  20 * Real.logb 10 (Real.sqrt (mean (audio.map fun x => x * x)) + 1 / 10 ^ 10)

/-- `formula_2_noise_power` (Backend/Processing.py lines 67–76): the same RMS
formula applied to the first `fft_size * 5 = 10240` samples. -/
def formula_2_noise_power (audio : List ℝ) : ℝ :=
  formula_1_signal_power (audio.take (2048 * 5))

/-- The scalar Wiener gain of `formula_4_wiener_filter`
(Backend/Processing.py lines 124–129): dB powers mapped to linear scale by
`10 ** (p / 20)`, `gain = s / (s + n + 1e-10)`, clipped to `[0, 1]` by
`np.clip`. -/
def formula_4_gain (noisePowerDb signalPowerDb : ℝ) : ℝ :=
  min (max ((10 : ℝ) ^ (signalPowerDb / 20) /
      ((10 : ℝ) ^ (signalPowerDb / 20) + (10 : ℝ) ^ (noisePowerDb / 20) + 1 / 10 ^ 10)) 0) 1

/-- `formula_4_wiener_filter` (Backend/Processing.py lines 119–134): the whole
STFT scaled by the single clipped gain (phase preserved). -/
def formula_4_wiener_filter (stftM : List (Frame ℝ)) (noisePowerDb signalPowerDb : ℝ) :
    List (Frame ℝ) :=
  stftM.map fun f => f.map fun z =>
    (formula_4_gain noisePowerDb signalPowerDb * z.1, formula_4_gain noisePowerDb signalPowerDb * z.2)

/-- Magnitude `np.abs(z)` of a cartesian bin. -/
def binMag (z : CBin ℝ) : ℝ := Real.sqrt (normSq z)

/-- `enhanced_mag * np.exp(1j * np.angle(z))`: the cartesian bin with magnitude
`m` and the phase of `z` (`np.angle(0) = 0`, so a zero bin yields `(m, 0)`). -/
def withPhaseOf (m : ℝ) (z : CBin ℝ) : CBin ℝ :=
  if binMag z = 0 then (m, 0) else (m / binMag z * z.1, m / binMag z * z.2)

/-- `formula_5_spectral_subtraction` as called by the pipeline on whole
matrices (Backend/Processing.py lines 155–168 with the call of lines 333–337).
The subtraction `audio_mag - factor * noise_mag` broadcasts only when the two
matrices have the same frame count (the noise matrix is `stft[:, :10]`, so with
more than ten frames the numpy subtraction raises, the `except` branch of lines
169–171 catches it, and the input is returned unchanged). -/
def formula_5_matrix (audio noise : List (Frame ℝ)) (factor : ℝ) : List (Frame ℝ) :=
  if noise.length = audio.length then
    List.zipWith (fun af nf =>
      List.zipWith (fun a nz =>
        withPhaseOf (max (binMag a - factor * binMag nz) (1 / 10 * binMag a)) a) af nf) audio noise
  else audio

/-- `formula_6_spectral_distance` (Backend/Processing.py lines 189–195):
`sqrt(mean((|orig| - |enh|)**2))` over all bins. -/
def formula_6_spectral_distance (orig enh : List (Frame ℝ)) : ℝ :=
  Real.sqrt (mean (List.zipWith (fun of ef =>
    List.zipWith (fun a b => (binMag a - binMag b) * (binMag a - binMag b)) of ef) orig enh).flatten)

open scoped Classical in
/-- `formula_7_segmental_snr` (Backend/Processing.py lines 216–241):
non-overlapping blocks of `fft_size = 2048` samples of the original signal,
per-block `10*log10(signal_power/(error_power + 1e-10))` kept only when
`error_power > 1e-10`, arithmetic mean of the kept values (`0.0` when none). -/
def formula_7_segmental_snr (orig enh : List ℝ) : ℝ :=
  let vals := (List.range (orig.length / 2048)).filterMap fun i =>
    let of_ := (orig.drop (i * 2048)).take 2048
    let ef := (enh.drop (i * 2048)).take 2048
    let sp := mean (of_.map fun x => x * x)
    let ep := mean ((List.zipWith (fun a b => a - b) of_ ef).map fun x => x * x)
    if (1 / 10 ^ 10 : ℝ) < ep then some (10 * Real.logb 10 (sp / (ep + 1 / 10 ^ 10))) else none
  if vals.isEmpty then 0 else mean vals

/-- Python's `round(x, 4)` (ties differ between Python's half-even and this
half-up `round`, but no pipeline value sits on a tie in any claim). -/
def pyRound4 (x : ℝ) : ℝ := (round (x * 10000) : ℤ) / 10000

/-- The Metrics Record: the eight scalar fields of the `metrics` dict built at
Backend/Processing.py lines 371–380. -/
structure Metrics where
  signal_power : ℝ
  noise_power : ℝ
  snr_input : ℝ
  wiener_filter_gain : ℝ
  spectral_subtraction_factor : ℝ
  spectral_distance : ℝ
  segmental_snr : ℝ
  processing_duration : ℝ

/-- The value `process_audio` hands back to its caller: either the success dict
`{'success': True, 'output_path': ..., 'metrics': {...}}` (together with the
enhanced samples written to the output file) or the failure dict
`{'success': False, 'error': str(e)}` built by the `except` handler of lines
383–388.  There is no other shape and no typed error object. -/
inductive ProcessResult where
  | success (output_path : String) (enhanced : List ℝ) (metrics : Metrics)
  | failure (error : String)

/-- `Path(input_path).stem` (Backend/Processing.py line 352). -/
def pathStem (s : String) : String :=
  let base := (s.splitOn "/").getLastD ""
  let parts := base.splitOn "."
  if parts.length ≤ 1 then base else String.intercalate "." parts.dropLast

/-- Steps 2–5 of the pipeline: STFT, mock noise slice `stft[:, :10] * 0.5`
(line 323), Wiener filtering, spectral subtraction with factor `0.75`. -/
def backend_enhanced_stft (audio : List ℝ) : List (Frame ℝ) :=
  let stftM := stft_librosa audio
  let noiseStft := (stftM.take 10).map fun f => f.map fun z => (z.1 / 2, z.2 / 2)
  let wienerStft :=
    formula_4_wiener_filter stftM (formula_2_noise_power audio) (formula_1_signal_power audio)
  formula_5_matrix wienerStft noiseStft (3 / 4)

/-- Step 6: the ISTFT reconstruction written to the output file. -/
def backend_enhanced_audio (audio : List ℝ) : List ℝ :=
  istft_librosa (backend_enhanced_stft audio)

/-- `AudioProcessor.process_audio` (Backend/Processing.py lines 299–388).
The file I/O of step 1 (`librosa.load`) is the pipeline's fault source and is
modelled by the `load` argument: a decoding failure enters the `except`
handler, which returns the failure dict; the remaining steps are total numpy
computations (the helper formulas catch their own exceptions internally).
Wall-clock timestamps are passed in as `startTime`/`endTime`. -/
def process_audio (load : Except String (List ℝ × ℕ)) (inputPath : String)
    (outputPath? : Option String) (startTime endTime : ℝ) : ProcessResult :=
  match load with
  | .error e => .failure e
  | .ok (audio, _sr) =>
    let stftM := stft_librosa audio
    let signalPower := formula_1_signal_power audio
    let noisePower := formula_2_noise_power audio
    let snrInput := formula_3_snr_calculation signalPower noisePower
    let enhancedStft := backend_enhanced_stft audio
    let enhancedAudio := backend_enhanced_audio audio
    let outputPath := outputPath?.getD (pathStem inputPath ++ "_enhanced.wav")
    .success outputPath enhancedAudio
      { signal_power := pyRound4 signalPower
        noise_power := pyRound4 noisePower
        snr_input := pyRound4 snrInput
        wiener_filter_gain := pyRound4 (4 / 5)
        spectral_subtraction_factor := pyRound4 (3 / 4)
        spectral_distance := pyRound4 (formula_6_spectral_distance stftM enhancedStft)
        segmental_snr := pyRound4 (formula_7_segmental_snr audio enhancedAudio)
        processing_duration := pyRound4 (endTime - startTime) }

/-- The `'error'` entry of the returned dict (`none` on success). -/
def resultError : ProcessResult → Option String
  | .failure e => some e
  | .success _ _ _ => none

/-- The enhanced samples written on success (`none` on failure). -/
def resultEnhanced : ProcessResult → Option (List ℝ)
  | .success _ enh _ => some enh
  | .failure _ => none

/-- The `'metrics'` entry of the returned dict (`none` on failure). -/
def resultMetrics : ProcessResult → Option Metrics
  | .success _ _ m => some m
  | .failure _ => none

end

/-! ## Helper lemmas -/

theorem zipAddExt_length {F : Type*} [Add F] (xs ys : List F) :
    (zipAddExt xs ys).length = max xs.length ys.length := by
  induction xs generalizing ys with
  | nil => simp [zipAddExt]
  | cons x xs ih =>
    cases ys with
    | nil => simp [zipAddExt]
    | cons y ys =>
      simp only [zipAddExt, List.length_cons, ih]
      omega

theorem ola_length {F : Type*} [Add F] [Zero F] (hop n : ℕ) (hn : hop ≤ n)
    (fs : List (List F)) (hf : ∀ f ∈ fs, f.length = n) :
    (ola hop fs).length = if fs.length = 0 then 0 else n + hop * (fs.length - 1) := by
  induction fs with
  | nil => simp [ola]
  | cons f rest ih =>
    have hfl : f.length = n := hf f (List.mem_cons_self _ _)
    have ihr := ih fun g hg => hf g (List.mem_cons_of_mem _ hg)
    cases rest with
    | nil =>
      simp only [ola, zipAddExt_length, List.length_append, List.length_replicate, hfl,
        List.length_cons, List.length_nil]
      simp [Nat.max_eq_left hn]
    | cons g rest' =>
      rw [if_neg (by simp)] at ihr
      simp only [ola, zipAddExt_length, List.length_append, List.length_replicate, hfl,
        List.length_cons] at ihr ⊢
      rw [ihr, if_neg (by omega), Nat.add_sub_cancel, Nat.add_sub_cancel,
        Nat.max_eq_right (by omega)]
      ring

theorem extractFrames_length {α : Type*} (xs : List α) (n hop : ℕ) :
    (extractFrames xs n hop).length = (xs.length - n) / hop + 1 := by
  rw [extractFrames, List.length_map, List.length_range]

theorem hannWindow_length (n : ℕ) : (hannWindow n).length = n := by
  rw [hannWindow, List.length_map, List.length_range]

theorem irfftReal_length (X : List (CBin ℝ)) (n : ℕ) : (irfftReal X n).length = n := by
  rw [irfftReal, List.length_map, List.length_range]

theorem stft_librosa_length (audio : List ℝ) :
    (stft_librosa audio).length = audio.length / 512 + 1 := by
  simp only [stft_librosa, List.length_map, extractFrames_length, centerPad,
    List.length_append, List.length_replicate]
  omega

theorem stft_scipy_length (sig : List ℝ) :
    (stft_scipy sig).length = (sig.length + 511) / 512 + 1 := by
  simp only [stft_scipy, List.length_map, extractFrames_length, List.length_append,
    List.length_replicate, scipyPad]
  omega

theorem istft_librosa_length (frames : List (Frame ℝ)) :
    (istft_librosa frames).length = 512 * (frames.length - 1) := by
  have h1 : ∀ f ∈ frames.map fun f => List.zipWith (· * ·) (hannWindow 2048) (irfftReal f 2048),
      f.length = 2048 := by
    intro g hg
    obtain ⟨f, _, rfl⟩ := List.mem_map.mp hg
    simp [hannWindow_length, irfftReal_length]
  have h2 : ∀ f ∈ List.replicate frames.length ((hannWindow 2048).map fun w => w * w),
      f.length = 2048 := by
    intro g hg
    rw [List.eq_of_mem_replicate hg]
    simp [hannWindow_length]
  simp only [istft_librosa, windowSumSquare, List.length_take, List.length_drop,
    List.length_zipWith, ola_length 512 2048 (by norm_num) _ h1,
    ola_length 512 2048 (by norm_num) _ h2, List.length_map, List.length_replicate]
  by_cases h : frames.length = 0 <;> simp [h] <;> omega

theorem istft_scipy_length (frames : List (Frame ℝ)) :
    (istft_scipy frames).length = 512 * (frames.length - 1) := by
  have h1 : ∀ f ∈ frames.map fun f =>
      List.zipWith (· * ·) (hannWindow 1024)
        (irfftReal (f.map fun z => (z.1 * (hannWindow 1024).sum, z.2 * (hannWindow 1024).sum)) 1024),
      f.length = 1024 := by
    intro g hg
    obtain ⟨f, _, rfl⟩ := List.mem_map.mp hg
    simp [hannWindow_length, irfftReal_length]
  have h2 : ∀ f ∈ List.replicate frames.length ((hannWindow 1024).map fun w => w * w),
      f.length = 1024 := by
    intro g hg
    rw [List.eq_of_mem_replicate hg]
    simp [hannWindow_length]
  simp only [istft_scipy, windowSumSquare, List.length_take, List.length_drop,
    List.length_zipWith, ola_length 512 1024 (by norm_num) _ h1,
    ola_length 512 1024 (by norm_num) _ h2, List.length_map, List.length_replicate]
  by_cases h : frames.length = 0 <;> simp [h] <;> omega

theorem formula_5_matrix_length (audio noise : List (Frame ℝ)) (factor : ℝ) :
    (formula_5_matrix audio noise factor).length = audio.length := by
  unfold formula_5_matrix
  split
  · next h => simp [h]
  · rfl

theorem backend_enhanced_stft_length (audio : List ℝ) :
    (backend_enhanced_stft audio).length = audio.length / 512 + 1 := by
  simp [backend_enhanced_stft, formula_5_matrix_length, formula_4_wiener_filter,
    stft_librosa_length]

theorem backend_enhanced_audio_length (audio : List ℝ) :
    (backend_enhanced_audio audio).length = 512 * (audio.length / 512) := by
  simp [backend_enhanced_audio, istft_librosa_length, backend_enhanced_stft_length]

theorem backend_enhanced_audio_nil : backend_enhanced_audio [] = [] := by
  have h := backend_enhanced_audio_length []
  simp only [List.length_nil] at h
  exact List.eq_nil_of_length_eq_zero (by simpa using h)

theorem adaptiveLoop_length {F : Type*} [LinearOrderedField F] (α : F) (noise : List F)
    (fs : List (Frame F)) : (adaptiveLoop α noise fs).length = fs.length := by
  induction fs generalizing noise with
  | nil => rfl
  | cons f rest ih => simp [adaptiveLoop, ih]

theorem adaptive_core_length {F : Type*} [LinearOrderedField F] (α : F)
    (frames : List (Frame F)) : (adaptive_core α frames).length = frames.length :=
  adaptiveLoop_length α _ frames

theorem adaptive_wiener_recon_length (sig : List ℝ) (fs : ℕ) (α : ℝ) :
    (adaptive_wiener_recon sig fs α).length = 512 * ((sig.length + 511) / 512) := by
  simp [adaptive_wiener_recon, istft_scipy_length, adaptive_core_length, stft_scipy_length]

theorem noiseIter_cons {F : Type*} [LinearOrderedField F] (α : F) (init : List F)
    (f : Frame F) (rest : List (Frame F)) (k : ℕ) :
    noiseIter α init (f :: rest) (k + 1) =
      noiseIter α (List.zipWith (noiseUpdate α) init (framePsd f)) rest k := by
  induction k with
  | zero => rfl
  | succ k ih =>
    show List.zipWith (noiseUpdate α) (noiseIter α init (f :: rest) (k + 1))
        (framePsd ((f :: rest).getD (k + 1) [])) = _
    rw [ih, List.getD_cons_succ]
    rfl

theorem adaptiveLoop_getD {F : Type*} [LinearOrderedField F] (α : F) (init : List F)
    (frames : List (Frame F)) (k : ℕ) (hk : k < frames.length) :
    (adaptiveLoop α init frames).getD k [] =
      applyGain (gainVec (frames.getD k []) (noiseIter α init frames (k + 1)))
        (frames.getD k []) := by
  induction frames generalizing init k with
  | nil => simp at hk
  | cons f rest ih =>
    cases k with
    | zero => simp [adaptiveLoop, noiseIter]
    | succ k =>
      have hk' : k < rest.length := by simpa using hk
      simp only [adaptiveLoop, List.getD_cons_succ, noiseIter_cons]
      exact ih _ k hk'

theorem normSq_nonneg {F : Type*} [LinearOrderedCommRing F] (z : CBin F) : 0 ≤ normSq z :=
  add_nonneg (mul_self_nonneg _) (mul_self_nonneg _)

theorem mean_nonneg {F : Type*} [LinearOrderedField F] (xs : List F)
    (h : ∀ x ∈ xs, 0 ≤ x) : 0 ≤ mean xs :=
  div_nonneg (List.sum_nonneg h) (Nat.cast_nonneg _)

theorem getD_eq_or_mem {α : Type*} (l : List α) (i : ℕ) (d : α) :
    l.getD i d = d ∨ l.getD i d ∈ l := by
  induction l generalizing i with
  | nil => left; rfl
  | cons x xs ih =>
    cases i with
    | zero => right; simp
    | succ i =>
      rcases ih i with h | h
      · left; simpa using h
      · right; simp only [List.getD_cons_succ]; exact List.mem_cons_of_mem _ h

theorem mem_zipWith {α β γ : Type*} {h : α → β → γ} {as : List α} {bs : List β} {x : γ}
    (hx : x ∈ List.zipWith h as bs) : ∃ a ∈ as, ∃ b ∈ bs, x = h a b := by
  induction as generalizing bs with
  | nil => simp at hx
  | cons a as ih =>
    cases bs with
    | nil => simp at hx
    | cons b bs =>
      simp only [List.zipWith_cons_cons, List.mem_cons] at hx
      rcases hx with rfl | hx
      · exact ⟨a, by simp, b, by simp, rfl⟩
      · obtain ⟨a', ha, b', hb, rfl⟩ := ih hx
        exact ⟨a', by simp [ha], b', by simp [hb], rfl⟩

theorem bootstrapNoise_nonneg {F : Type*} [LinearOrderedField F] (frames : List (Frame F)) :
    ∀ x ∈ bootstrapNoise frames, 0 ≤ x := by
  intro x hx
  simp only [bootstrapNoise, binMean, List.mem_map, List.mem_range] at hx
  obtain ⟨i, _, rfl⟩ := hx
  apply mean_nonneg
  intro v hv
  obtain ⟨r, hr, rfl⟩ := List.mem_map.mp hv
  rcases getD_eq_or_mem r i 0 with h | h
  · rw [h]
  · obtain ⟨f, _, rfl⟩ := List.mem_map.mp hr
    obtain ⟨z, _, hz⟩ := List.mem_map.mp h
    exact hz ▸ normSq_nonneg z

theorem noiseIter_nonneg {F : Type*} [LinearOrderedField F] (α : F) (h0 : 0 ≤ α) (h1 : α ≤ 1)
    (init : List F) (hinit : ∀ x ∈ init, 0 ≤ x) (frames : List (Frame F)) (k : ℕ) :
    ∀ x ∈ noiseIter α init frames k, 0 ≤ x := by
  induction k with
  | zero => exact hinit
  | succ k ih =>
    intro x hx
    simp only [noiseIter] at hx
    obtain ⟨a, ha, b, hb, rfl⟩ := mem_zipWith hx
    have hb' : 0 ≤ b := by
      obtain ⟨z, _, rfl⟩ := List.mem_map.mp hb
      exact normSq_nonneg z
    exact add_nonneg (mul_nonneg h0 (ih a ha)) (mul_nonneg (by linarith) hb')

theorem speechPsd_pos {F : Type*} [LinearOrderedField F] (cp n : F) : 0 < speechPsd cp n :=
  lt_of_lt_of_le (by positivity) (le_max_right _ _)

theorem wienerH_nonneg {F : Type*} [LinearOrderedField F] (cp n : F) (hn : 0 ≤ n) :
    0 ≤ wienerH cp n :=
  div_nonneg (speechPsd_pos cp n).le (add_nonneg (speechPsd_pos cp n).le hn)

theorem wienerH_le_one {F : Type*} [LinearOrderedField F] (cp n : F) (hn : 0 ≤ n) :
    wienerH cp n ≤ 1 := by
  rw [wienerH, div_le_one (add_pos_of_pos_of_nonneg (speechPsd_pos cp n) hn)]
  linarith

theorem gainVec_getD_bounds {F : Type*} [LinearOrderedField F] (f : Frame F) (noise : List F)
    (hn : ∀ x ∈ noise, 0 ≤ x) (i : ℕ) :
    0 ≤ (gainVec f noise).getD i 0 ∧ (gainVec f noise).getD i 0 ≤ 1 := by
  rcases getD_eq_or_mem (gainVec f noise) i 0 with h | h
  · rw [h]; exact ⟨le_refl 0, zero_le_one⟩
  · obtain ⟨z, _, n, hn', hg⟩ := mem_zipWith h
    exact hg ▸ ⟨wienerH_nonneg _ _ (hn n hn'), wienerH_le_one _ _ (hn n hn')⟩

theorem maxAbs_nonneg {F : Type*} [LinearOrderedField F] (xs : List F) : 0 ≤ maxAbs xs := by
  have key : ∀ (l : List F) (init : F), init ≤ l.foldl (fun m x => max m |x|) init := by
    intro l
    induction l with
    | nil => intro init; exact le_refl _
    | cons x xs ih =>
      intro init
      exact le_trans (le_max_left _ _) (ih (max init |x|))
  exact key xs 0

theorem maxAbs_map_div {F : Type*} [LinearOrderedField F] (xs : List F) (M : F) (hM : 0 < M) :
    maxAbs (xs.map fun x => x / M) = maxAbs xs / M := by
  have key : ∀ (l : List F) (init : F),
      (l.map fun x => x / M).foldl (fun m x => max m |x|) (init / M) =
        l.foldl (fun m x => max m |x|) init / M := by
    intro l
    induction l with
    | nil => intro init; rfl
    | cons x xs ih =>
      intro init
      simp only [List.map_cons, List.foldl_cons]
      rw [abs_div, abs_of_pos hM, max_div_div_right hM.le, ih]
  simpa [maxAbs, zero_div] using key xs 0

/-! ## Claim theorems -/

/-- Claim C2: for every pair of signal-power and noise-power values (in dB),
`formula_3_snr_calculation` returns `max(signal_power_db - noise_power_db, 0)`,
hence is never negative, and whenever the noise power is at least the signal
power the result is exactly `0`. -/
theorem claim_C2_snr_floor {F : Type*} [LinearOrderedField F] (s n s2 n2 : F) (h : s2 ≤ n2) :
    formula_3_snr_calculation s n = max (s - n) 0 ∧
    0 ≤ formula_3_snr_calculation s n ∧
    formula_3_snr_calculation s2 n2 = 0 :=
  ⟨rfl, le_max_right _ _, max_eq_right (by linarith)⟩

/-- Witness for C2 at concrete powers `(10, 3)` and at the noise-dominated
pair `(0, 7)`. -/
theorem claim_C2_snr_floor_witness :
    (0 : ℚ) ≤ 7 ∧
    (formula_3_snr_calculation (10 : ℚ) 3 = max (10 - 3) 0 ∧
      0 ≤ formula_3_snr_calculation (10 : ℚ) 3 ∧
      formula_3_snr_calculation (0 : ℚ) 7 = 0) :=
  ⟨by norm_num, claim_C2_snr_floor 10 3 0 7 (by norm_num)⟩

/-- Claim C3: for every frame `k` of one `adaptive_wiener` call, the emitted
frame is the input frame scaled bin-wise by the gain computed from the
*updated* noise estimate; the noise estimate obeys
`noise_psd = α*noise_psd + (1-α)*|X|²`, the gain equals
`speech_psd / (speech_psd + noise_psd)` with
`speech_psd = max(|X|² - noise_psd, 1e-10)`, and the estimate is bootstrapped
from the power spectrum of the first five frames of the current signal only. -/
theorem claim_C3_adaptive_wiener_step {F : Type*} [LinearOrderedField F]
    (α : F) (frames : List (Frame F)) (k : ℕ) (hk : k < frames.length) :
    (adaptive_core α frames).getD k [] =
      applyGain (gainVec (frames.getD k []) (noiseAfter α frames (k + 1))) (frames.getD k []) ∧
    noiseAfter α frames (k + 1) =
      List.zipWith (fun n c => α * n + (1 - α) * c) (noiseAfter α frames k)
        ((frames.getD k []).map fun z => normSq z) ∧
    gainVec (frames.getD k []) (noiseAfter α frames (k + 1)) =
      List.zipWith (fun z n =>
          max (normSq z - n) (1 / 10 ^ 10) / (max (normSq z - n) (1 / 10 ^ 10) + n))
        (frames.getD k []) (noiseAfter α frames (k + 1)) ∧
    noiseAfter α frames 0 = binMean ((frames.take 5).map framePsd) (frames.headD []).length :=
  ⟨adaptiveLoop_getD α _ frames k hk, rfl, rfl, rfl⟩

/-- Witness for C3 on a concrete one-frame spectrogram over `ℚ`. -/
theorem claim_C3_adaptive_wiener_step_witness :
    0 < ([[((2 : ℚ), 0)]] : List (Frame ℚ)).length ∧
    ((adaptive_core (1 / 2 : ℚ) [[((2 : ℚ), 0)]]).getD 0 [] =
      applyGain (gainVec ([[((2 : ℚ), 0)]].getD 0 [])
        (noiseAfter (1 / 2 : ℚ) [[((2 : ℚ), 0)]] 1)) ([[((2 : ℚ), 0)]].getD 0 []) ∧
    noiseAfter (1 / 2 : ℚ) [[((2 : ℚ), 0)]] 1 =
      List.zipWith (fun n c => (1 / 2 : ℚ) * n + (1 - 1 / 2) * c)
        (noiseAfter (1 / 2 : ℚ) [[((2 : ℚ), 0)]] 0)
        (([[((2 : ℚ), 0)]].getD 0 []).map fun z => normSq z) ∧
    gainVec ([[((2 : ℚ), 0)]].getD 0 []) (noiseAfter (1 / 2 : ℚ) [[((2 : ℚ), 0)]] 1) =
      List.zipWith (fun z n =>
          max (normSq z - n) (1 / 10 ^ 10) / (max (normSq z - n) (1 / 10 ^ 10) + n))
        ([[((2 : ℚ), 0)]].getD 0 []) (noiseAfter (1 / 2 : ℚ) [[((2 : ℚ), 0)]] 1) ∧
    noiseAfter (1 / 2 : ℚ) [[((2 : ℚ), 0)]] 0 =
      binMean (([[((2 : ℚ), 0)]].take 5).map framePsd) ([[((2 : ℚ), 0)]].headD []).length) :=
  ⟨by decide, claim_C3_adaptive_wiener_step (1 / 2) [[((2 : ℚ), 0)]] 0 (by decide)⟩

/-- Claim C4: with an adaptation factor in `[0, 1]` (the source's slider range
is `[0.90, 0.999]`), every bin of the running noise estimate is non-negative
and every Gain Vector bin of `adaptive_wiener` lies in `[0, 1]`, for any
finite input spectrogram; the Backend's `formula_4_gain` is likewise clamped
into `[0, 1]` by `np.clip` for all dB inputs. -/
theorem claim_C4_gain_bounds {F : Type*} [LinearOrderedField F] (α : F)
    (h0 : 0 ≤ α) (h1 : α ≤ 1) (frames : List (Frame F)) (k i : ℕ)
    (noisePowerDb signalPowerDb : ℝ) :
    0 ≤ (noiseAfter α frames k).getD i 0 ∧
    0 ≤ (gainVec (frames.getD k []) (noiseAfter α frames (k + 1))).getD i 0 ∧
    (gainVec (frames.getD k []) (noiseAfter α frames (k + 1))).getD i 0 ≤ 1 ∧
    0 ≤ formula_4_gain noisePowerDb signalPowerDb ∧
    formula_4_gain noisePowerDb signalPowerDb ≤ 1 := by
  have hna : ∀ m, ∀ x ∈ noiseAfter α frames m, 0 ≤ x := fun m =>
    noiseIter_nonneg α h0 h1 _ (bootstrapNoise_nonneg frames) frames m
  refine ⟨?_, (gainVec_getD_bounds _ _ (hna (k + 1)) i).1,
    (gainVec_getD_bounds _ _ (hna (k + 1)) i).2,
    le_min (le_max_right _ _) zero_le_one, min_le_right _ _⟩
  rcases getD_eq_or_mem (noiseAfter α frames k) i 0 with h | h
  · rw [h]
  · exact hna k _ h

/-- Witness for C4 at `α = 49/50` on a concrete one-frame spectrogram. -/
theorem claim_C4_gain_bounds_witness :
    ((0 : ℚ) ≤ 49 / 50 ∧ (49 / 50 : ℚ) ≤ 1) ∧
    (0 ≤ (noiseAfter (49 / 50 : ℚ) [[((3 : ℚ), 4)]] 0).getD 0 0 ∧
      0 ≤ (gainVec ([[((3 : ℚ), 4)]].getD 0 [])
        (noiseAfter (49 / 50 : ℚ) [[((3 : ℚ), 4)]] 1)).getD 0 0 ∧
      (gainVec ([[((3 : ℚ), 4)]].getD 0 [])
        (noiseAfter (49 / 50 : ℚ) [[((3 : ℚ), 4)]] 1)).getD 0 0 ≤ 1 ∧
      0 ≤ formula_4_gain 0 0 ∧ formula_4_gain 0 0 ≤ 1) :=
  ⟨⟨by norm_num, by norm_num⟩,
    claim_C4_gain_bounds (49 / 50) (by norm_num) (by norm_num) [[((3 : ℚ), 4)]] 0 0 0 0⟩

/-- Claim C5: a spectral-subtraction bin has magnitude
`max(|X| - factor * |noise|, 0.1 * |X|)` (with `|noise| = sqrt(noise_psd)`),
never drops below one tenth of the input magnitude, and keeps the phase of
`X` unchanged; the frame operation is exactly this bin operation applied
bin-wise. -/
theorem claim_C5_spectral_subtraction_formula {F : Type*} [LinearOrderedField F]
    (factor : F) (a nz : PolarBin F) (audio noise : List (PolarBin F)) :
    (formula_5_bin factor a nz).mag = max (a.mag - factor * nz.mag) (1 / 10 * a.mag) ∧
    1 / 10 * a.mag ≤ (formula_5_bin factor a nz).mag ∧
    (formula_5_bin factor a nz).phase = a.phase ∧
    formula_5_spectral_subtraction factor audio noise =
      List.zipWith (formula_5_bin factor) audio noise :=
  ⟨rfl, le_max_right _ _, rfl, rfl⟩

/-- Claim C1 (code_bug record): the `wiener_filter_gain` and
`spectral_subtraction_factor` fields of the Metrics Record returned by
`process_audio` are the constants `0.8` and `0.75` for *every* input signal —
they are hard-coded (the source comments them as mock values), not computed
from the engine state. -/
theorem claim_C1_hardcoded_metric_fields (audio : List ℝ) (sr : ℕ) (inputPath : String)
    (outputPath? : Option String) (startTime endTime : ℝ) :
    (resultMetrics (process_audio (Except.ok (audio, sr)) inputPath outputPath?
        startTime endTime)).map Metrics.wiener_filter_gain = some (4 / 5) ∧
    (resultMetrics (process_audio (Except.ok (audio, sr)) inputPath outputPath?
        startTime endTime)).map Metrics.spectral_subtraction_factor = some (3 / 4) := by
  have h45 : pyRound4 (4 / 5) = 4 / 5 := by
    rw [pyRound4]
    have : ((4 : ℝ) / 5 * 10000) = ((8000 : ℤ) : ℝ) := by norm_num
    rw [this, round_intCast]
    norm_num
  have h34 : pyRound4 (3 / 4) = 3 / 4 := by
    rw [pyRound4]
    have : ((3 : ℝ) / 4 * 10000) = ((7500 : ℤ) : ℝ) := by norm_num
    rw [this, round_intCast]
    norm_num
  constructor <;> simp [process_audio, resultMetrics, h45, h34]

/-- Counterexample for C6 as stated: on the concrete zero-length input signal
the engine returns a *success* dict (no error of any kind, in particular no
typed `EmptySignalError`) whose enhanced output has zero samples — a silent
empty output. -/
theorem claim_C6_counterexample :
    resultError (process_audio (Except.ok (([] : List ℝ), 16000)) "noisy.wav"
      (some "enhanced.wav") 0 1) = none ∧
    resultEnhanced (process_audio (Except.ok (([] : List ℝ), 16000)) "noisy.wav"
      (some "enhanced.wav") 0 1) = some [] := by
  refine ⟨rfl, ?_⟩
  simp [process_audio, resultEnhanced, backend_enhanced_audio_nil]

/-- Claim C6 as amended: a zero-length input signal neither raises nor yields
a typed error — `process_audio` returns the success dict with a zero-length
enhanced output; fatal conditions are caught by the blanket handler and come
back only as the untyped string of `{'success': False, 'error': ...}`. -/
theorem claim_C6_empty_signal_behavior (sr : ℕ) (inputPath : String)
    (outputPath? : Option String) (startTime endTime : ℝ) :
    resultError (process_audio (Except.ok (([] : List ℝ), sr)) inputPath outputPath?
      startTime endTime) = none ∧
    resultEnhanced (process_audio (Except.ok (([] : List ℝ), sr)) inputPath outputPath?
      startTime endTime) = some [] := by
  refine ⟨rfl, ?_⟩
  simp [process_audio, resultEnhanced, backend_enhanced_audio_nil]

/-- Counterexample for C7 as stated: on a signal of exactly one frame
(2048 samples) the Backend STFT produces 5 spectrum frames, not the
`floor((len - N) / H) + 1 = 1` frames of the trailing-drop policy. -/
theorem claim_C7_counterexample :
    (stft_librosa (List.replicate 2048 (0 : ℝ))).length ≠ (2048 - 2048) / 512 + 1 := by
  rw [stft_librosa_length, List.length_replicate]
  decide

/-- Claim C7 as amended: the transforms use centered/zero-padding policies,
not the trailing-drop policy: `librosa.stft` with `center=True` (Backend)
yields `floor(len/H) + 1` frames and `scipy.signal.stft` with its zero
boundary and end padding (Python app) yields `ceil(len/H) + 1` frames. -/
theorem claim_C7_frame_count_policy (sig sig2 : List ℝ) :
    (stft_librosa sig).length = sig.length / 512 + 1 ∧
    (stft_scipy sig2).length = (sig2.length + 511) / 512 + 1 :=
  ⟨stft_librosa_length sig, stft_scipy_length sig2⟩

/-- Claim C8: for every input of at least one frame, the end-to-end
reconstruction has `512 * floor(len/512)` samples in the Backend pipeline and
`512 * ceil(len/512)` samples in the Python engine — equal to the input
length up to less than one hop (512 ≤ frame length) of edge trimming. -/
theorem claim_C8_output_length (audio : List ℝ) (fs : ℕ) (α : ℝ)
    (h : 2048 ≤ audio.length) :
    (backend_enhanced_audio audio).length = 512 * (audio.length / 512) ∧
    audio.length - (backend_enhanced_audio audio).length < 512 ∧
    (adaptive_wiener_recon audio fs α).length = 512 * ((audio.length + 511) / 512) ∧
    (adaptive_wiener_recon audio fs α).length - audio.length < 512 := by
  refine ⟨backend_enhanced_audio_length audio, ?_,
    adaptive_wiener_recon_length audio fs α, ?_⟩
  · rw [backend_enhanced_audio_length]
    omega
  · rw [adaptive_wiener_recon_length]
    omega

/-- Witness for C8 on a concrete 2048-sample signal. -/
theorem claim_C8_output_length_witness :
    2048 ≤ (List.replicate 2048 (0 : ℝ)).length ∧
    ((backend_enhanced_audio (List.replicate 2048 (0 : ℝ))).length =
        512 * ((List.replicate 2048 (0 : ℝ)).length / 512) ∧
      (List.replicate 2048 (0 : ℝ)).length -
          (backend_enhanced_audio (List.replicate 2048 (0 : ℝ))).length < 512 ∧
      (adaptive_wiener_recon (List.replicate 2048 (0 : ℝ)) 16000 (49 / 50)).length =
        512 * (((List.replicate 2048 (0 : ℝ)).length + 511) / 512) ∧
      (adaptive_wiener_recon (List.replicate 2048 (0 : ℝ)) 16000 (49 / 50)).length -
          (List.replicate 2048 (0 : ℝ)).length < 512) :=
  ⟨by rw [List.length_replicate],
    claim_C8_output_length _ 16000 (49 / 50) (by rw [List.length_replicate])⟩

/-- Claim C9: `process_audio` is total on every input path: a load failure is
returned as the failure dict carrying the exception message, and otherwise
the call returns the success dict with an output path, the enhanced samples,
and the Metrics Record whose eight fields are the rounded formula values (the
`Metrics` structure has exactly those eight fields). -/
theorem claim_C9_result_dict_shape (load : Except String (List ℝ × ℕ))
    (inputPath : String) (outputPath? : Option String) (startTime endTime : ℝ) :
    (∀ e, load = Except.error e →
      process_audio load inputPath outputPath? startTime endTime = ProcessResult.failure e) ∧
    (∀ audio sr, load = Except.ok (audio, sr) →
      process_audio load inputPath outputPath? startTime endTime =
        ProcessResult.success (outputPath?.getD (pathStem inputPath ++ "_enhanced.wav"))
          (backend_enhanced_audio audio)
          { signal_power := pyRound4 (formula_1_signal_power audio)
            noise_power := pyRound4 (formula_2_noise_power audio)
            snr_input := pyRound4 (formula_3_snr_calculation (formula_1_signal_power audio)
              (formula_2_noise_power audio))
            wiener_filter_gain := pyRound4 (4 / 5)
            spectral_subtraction_factor := pyRound4 (3 / 4)
            spectral_distance := pyRound4 (formula_6_spectral_distance (stft_librosa audio)
              (backend_enhanced_stft audio))
            segmental_snr := pyRound4 (formula_7_segmental_snr audio
              (backend_enhanced_audio audio))
            processing_duration := pyRound4 (endTime - startTime) }) := by
  constructor
  · rintro e rfl
    rfl
  · rintro audio sr rfl
    rfl

/-- Witness for C9: a failing load comes back as the failure dict, a
successful load as a success dict (no error entry). -/
theorem claim_C9_result_dict_shape_witness :
    process_audio (Except.error "decode failed") "a.wav" none 0 1 =
      ProcessResult.failure "decode failed" ∧
    resultError (process_audio (Except.ok (([] : List ℝ), 16000)) "a.wav"
      (some "b.wav") 0 1) = none :=
  ⟨(claim_C9_result_dict_shape (Except.error "decode failed") "a.wav" none 0 1).1
      "decode failed" rfl,
   by
    rw [(claim_C9_result_dict_shape (Except.ok (([] : List ℝ), 16000)) "a.wav"
      (some "b.wav") 0 1).2 [] 16000 rfl]
    rfl⟩

/-- Claim C10: `adaptive_wiener` divides its reconstruction by the
reconstruction's own peak absolute value, so whenever that peak is nonzero
the returned signal exists and has peak absolute value exactly `1`; when the
reconstruction is identically zero the division is by zero and the output is
not finite (`none`). -/
theorem claim_C10_peak_normalization {F : Type*} [LinearOrderedField F]
    (xs zs : List F) (sig : List ℝ) (fs : ℕ) (α : ℝ)
    (hx : maxAbs xs ≠ 0) (hz : maxAbs zs = 0) :
    (∃ ys, normalizeOut xs = some ys ∧ maxAbs ys = 1) ∧
    normalizeOut zs = none ∧
    adaptive_wiener sig fs α = normalizeOut (adaptive_wiener_recon sig fs α) := by
  have hM : 0 < maxAbs xs := lt_of_le_of_ne (maxAbs_nonneg xs) (Ne.symm hx)
  refine ⟨⟨xs.map fun x => x / maxAbs xs, ?_, ?_⟩, ?_, rfl⟩
  · rw [normalizeOut, if_neg hx]
  · rw [maxAbs_map_div xs _ hM, div_self hx]
  · rw [normalizeOut, if_pos hz]

/-- Witness for C10 on concrete rational sample lists. -/
theorem claim_C10_peak_normalization_witness :
    (maxAbs [(1 : ℚ), -2] ≠ 0 ∧ maxAbs [(0 : ℚ), 0] = 0) ∧
    ((∃ ys, normalizeOut [(1 : ℚ), -2] = some ys ∧ maxAbs ys = 1) ∧
      normalizeOut [(0 : ℚ), 0] = none ∧
      adaptive_wiener [] 16000 0 = normalizeOut (adaptive_wiener_recon [] 16000 0)) :=
  ⟨⟨by decide, by decide⟩,
    claim_C10_peak_normalization [(1 : ℚ), -2] [(0 : ℚ), 0] [] 16000 0
      (by decide) (by decide)⟩

end RP
